import Mathlib

/-!
Shallow embedding of the burn-and-record core of the repository:

* the client hook `useBurnNFT` (both the mpl-token-metadata and the mpl-core
  variants of `burnMultipleNFTs`, and their shared `recordBurns` helper),
* the `POST /api/burn-and-upgrade` route (validation, store pre-checks,
  on-chain re-verification, record building, `insertMany` with
  `ordered: false`),
* the MongoDB uniqueness contracts installed by `ensureIndexes`
  (unique index on `mint`, unique-sparse index on `upgradeTargetMint`),
* the offline reconciliation script `verify-burns.ts`.

Network and database I/O is modelled by explicit oracle parameters
(`fetchOk`, `submit`, `responses`, `getTx`) and by passing the store
(a list of persisted records) in and out of each operation.  The wallet
addresses, signatures and timestamps are plain strings, as in the source.
-/

/-- An NFT as held by the client (`src/types`: interface NFT).  Only the
fields the burn flow reads are kept. -/
structure NFT where
  mint : String
  name : String
deriving DecidableEq

/-- A persisted burn record (`src/types`: interface BurntNFT).  The optional
fields model the record either carrying or entirely omitting the
`upgradeTargetMint` / `upgradeTargetName` keys, which is what the sparse
unique index distinguishes. -/
structure BurntNFT where
  mint : String
  name : String
  burntBy : String
  transactionSignature : String
  burntAt : String
  upgradeTargetMint : Option String
  upgradeTargetName : Option String
deriving DecidableEq

/-- One element of `burns` in a `BurnBatchRequest`. -/
structure BurnEntry where
  mintAddress : String
  transactionSignature : String
  name : String
deriving DecidableEq

/-- One element of `upgrades` in a `BurnBatchRequest`. -/
structure UpgradeEntry where
  burnedMint : String
  upgradeMint : String
  upgradeName : String
deriving DecidableEq

/-- The body of a `POST /api/burn-and-upgrade` request, after JSON parsing. -/
structure BurnBatchRequest where
  walletAddress : String
  burns : List BurnEntry
  upgrades : List UpgradeEntry
deriving DecidableEq

/-! ## The Batcher

Source (both hook variants):

    const chunks: typeof burnItems[] = [];
    for (let i = 0; i < burnItems.length; i += BURNS_PER_TX) {
      chunks.push(burnItems.slice(i, i + BURNS_PER_TX));
    }

`chunkList` is that loop for a positive capacity `K`; the fuel argument is
the list length, which bounds the number of iterations (each iteration
consumes at least one element when `0 < K`; the source never runs the loop
with `K = 0`, since its capacity is the constant `BURNS_PER_TX = 3`). -/

/-- Max burn instructions per Solana transaction (source constant). -/
def BURNS_PER_TX : Nat := 3

def chunkListAux (K : Nat) : Nat → List α → List (List α)
  | _, [] => []
  | 0, _ :: _ => []
  | fuel + 1, a :: rest => ((a :: rest).take K) :: chunkListAux K fuel ((a :: rest).drop K)

/-- Partition `l` into successive groups of `K` elements (last group may be
shorter), exactly as the chunking loop in `burnMultipleNFTs` does. -/
def chunkList (K : Nat) (l : List α) : List (List α) :=
  chunkListAux K l.length l

theorem chunkListAux_nil (K fuel : Nat) : chunkListAux K fuel ([] : List α) = [] := by
  cases fuel <;> rfl

theorem chunkListAux_join (K : Nat) (hK : 0 < K) :
    ∀ (fuel : Nat) (l : List α), l.length ≤ fuel → (chunkListAux K fuel l).flatten = l := by
  intro fuel
  induction fuel with
  | zero =>
    intro l hl
    have : l = [] := List.eq_nil_of_length_eq_zero (Nat.le_zero.mp hl)
    subst this; rfl
  | succ n ih =>
    intro l hl
    cases l with
    | nil => rfl
    | cons a rest =>
      have hdrop : ((a :: rest).drop K).length ≤ n := by
        simp only [List.length_drop, List.length_cons]
        simp only [List.length_cons] at hl
        omega
      simp only [chunkListAux, List.flatten_cons, ih _ hdrop, List.take_append_drop]

theorem chunkListAux_length (K : Nat) (hK : 0 < K) :
    ∀ (fuel : Nat) (l : List α), l.length ≤ fuel →
      (chunkListAux K fuel l).length = (l.length + K - 1) / K := by
  intro fuel
  induction fuel with
  | zero =>
    intro l hl
    have : l = [] := List.eq_nil_of_length_eq_zero (Nat.le_zero.mp hl)
    subst this
    simp [chunkListAux, Nat.div_eq_of_lt (by omega : K - 1 < K)]
  | succ n ih =>
    intro l hl
    cases l with
    | nil => simp [chunkListAux, Nat.div_eq_of_lt (by omega : K - 1 < K)]
    | cons a rest =>
      have hdrop : ((a :: rest).drop K).length ≤ n := by
        simp only [List.length_drop, List.length_cons]
        simp only [List.length_cons] at hl
        omega
      have hrec := ih _ hdrop
      simp only [chunkListAux, List.length_cons, List.length_drop] at hrec ⊢
      rw [hrec]
      -- arithmetic: ((N - K) + K - 1) / K + 1 = (N + K - 1) / K for N = rest.length + 1 ≥ 1
      have key : (rest.length + 1 - K + K - 1) / K = (rest.length + 1 - 1) / K := by
        rcases le_or_lt (rest.length + 1) K with hle | hlt
        · have h1 : rest.length + 1 - K + K - 1 = K - 1 := by omega
          have h2 : rest.length + 1 - 1 < K := by omega
          rw [h1, Nat.div_eq_of_lt (by omega : K - 1 < K), Nat.div_eq_of_lt h2]
        · have h1 : rest.length + 1 - K + K - 1 = rest.length + 1 - 1 := by omega
          rw [h1]
      rw [key]
      have h3 : rest.length + 1 + K - 1 = (rest.length + 1 - 1) + K := by omega
      rw [h3, Nat.add_div_right _ hK]

theorem chunkListAux_size_le (K : Nat) :
    ∀ (fuel : Nat) (l : List α), ∀ c ∈ chunkListAux K fuel l, c.length ≤ K := by
  intro fuel
  induction fuel with
  | zero =>
    intro l c hc
    cases l with
    | nil => simp [chunkListAux] at hc
    | cons a rest => simp [chunkListAux] at hc
  | succ n ih =>
    intro l c hc
    cases l with
    | nil => simp [chunkListAux] at hc
    | cons a rest =>
      simp only [chunkListAux, List.mem_cons] at hc
      rcases hc with rfl | hc
      · simp [List.length_take]
      · exact ih _ c hc

theorem chunkListAux_full_sizes (K : Nat) (hK : 0 < K) :
    ∀ (fuel : Nat) (l : List α), l.length ≤ fuel →
      ∀ c ∈ (chunkListAux K fuel l).dropLast, c.length = K := by
  intro fuel
  induction fuel with
  | zero =>
    intro l hl c hc
    have : l = [] := List.eq_nil_of_length_eq_zero (Nat.le_zero.mp hl)
    subst this
    simp [chunkListAux] at hc
  | succ n ih =>
    intro l hl c hc
    cases l with
    | nil => simp [chunkListAux] at hc
    | cons a rest =>
      simp only [chunkListAux] at hc
      cases htail : chunkListAux K n ((a :: rest).drop K) with
      | nil => rw [htail] at hc; simp at hc
      | cons c0 cs =>
        rw [htail] at hc
        have hdropne : (a :: rest).drop K ≠ [] := by
          intro hnil
          rw [hnil, chunkListAux_nil] at htail
          exact List.noConfusion htail
        have hlen : K < (a :: rest).length := by
          by_contra hcon
          exact hdropne (List.drop_eq_nil_of_le (by omega))
        have hcc : (List.dropLast ((a :: rest).take K :: c0 :: cs)) =
            (a :: rest).take K :: List.dropLast (c0 :: cs) := rfl
        rw [hcc] at hc
        rcases List.mem_cons.mp hc with rfl | hc
        · simp only [List.length_take, List.length_cons]
          simp only [List.length_cons] at hlen
          omega
        · have hdrop : ((a :: rest).drop K).length ≤ n := by
            simp only [List.length_drop, List.length_cons]
            simp only [List.length_cons] at hl
            omega
          have := ih _ hdrop c
          rw [htail] at this
          exact this hc

/-- Claim C5 (confirmed): for any list of burn targets and capacity K > 0, the
batching step produces ceil(N/K) ordered groups, each of size at most K, all
of size K except possibly the last, whose concatenation equals the original
input list in the original order. -/
theorem claim5_batching_correct (K : Nat) (hK : 0 < K) (l : List α) :
    (chunkList K l).length = (l.length + K - 1) / K ∧
    (∀ c ∈ chunkList K l, c.length ≤ K) ∧
    (∀ c ∈ (chunkList K l).dropLast, c.length = K) ∧
    (chunkList K l).flatten = l :=
  ⟨chunkListAux_length K hK l.length l le_rfl,
   fun c hc => chunkListAux_size_le K l.length l c hc,
   fun c hc => chunkListAux_full_sizes K hK l.length l le_rfl c hc,
   chunkListAux_join K hK l.length l le_rfl⟩

/-- Witness for C5 at a concrete input: 5 targets with capacity 3 give
ceil(5/3) = 2 groups joining back to the input. -/
theorem claim5_batching_correct_witness :
    (chunkList 3 [10, 20, 30, 40, 50]).length = ([10, 20, 30, 40, 50].length + 3 - 1) / 3 ∧
    (chunkList 3 [10, 20, 30, 40, 50]).flatten = [10, 20, 30, 40, 50] :=
  ⟨(claim5_batching_correct 3 (by decide) [10, 20, 30, 40, 50]).1,
   (claim5_batching_correct 3 (by decide) [10, 20, 30, 40, 50]).2.2.2⟩

/-! ## The Persistence Guard

`ensureIndexes` installs a unique index on `mint` and a unique sparse index
on `upgradeTargetMint`; the store-insert step of the POST route is

    await collection.insertMany(records, { ordered: false });

`ordered: false` means every document of the batch is attempted: documents
violating a unique index fail individually (and the driver then throws the
duplicate-key error, code 11000, mapped to a 409 response), while the other
documents of the same batch are persisted.  The store is a list of records
in insertion order. -/

def storeMints (store : List BurntNFT) : List String :=
  store.map (fun r => r.mint)

/-- The non-absent upgrade-target values in the store; only these participate
in the sparse unique index. -/
def storeTargets (store : List BurntNFT) : List String :=
  store.filterMap (fun r => r.upgradeTargetMint)

/-- Would inserting `r` into `store` violate one of the two unique indexes? -/
def dupKey (store : List BurntNFT) (r : BurntNFT) : Bool :=
  decide (r.mint ∈ storeMints store) ||
    (match r.upgradeTargetMint with
     | some t => decide (t ∈ storeTargets store)
     | none => false)

/-- The same condition as a proposition. -/
def conflicts (store : List BurntNFT) (r : BurntNFT) : Prop :=
  r.mint ∈ storeMints store ∨
    ∃ t, r.upgradeTargetMint = some t ∧ t ∈ storeTargets store

theorem dupKey_iff (store : List BurntNFT) (r : BurntNFT) :
    dupKey store r = true ↔ conflicts store r := by
  cases h : r.upgradeTargetMint <;> simp [dupKey, conflicts, h]

/-- Unordered bulk insert: each record is attempted in turn against the
current store; a unique-index violation skips that record and remembers that
a duplicate-key error occurred. -/
def insertManyAux (store : List BurntNFT) (dup : Bool) :
    List BurntNFT → List BurntNFT × Bool
  | [] => (store, dup)
  | r :: rest =>
    if dupKey store r then insertManyAux store true rest
    else insertManyAux (store ++ [r]) dup rest

/-- The store-insert step (`insertBurnRecords` in the spec): status 409 when
a duplicate-key error occurred during the unordered bulk insert, 200
otherwise, together with the resulting store. -/
def insertBurnRecords (store records : List BurntNFT) : Nat × List BurntNFT :=
  let p := insertManyAux store false records
  (if p.2 then 409 else 200, p.1)

theorem insertManyAux_mem_store (records : List BurntNFT) :
    ∀ (store : List BurntNFT) (dup : Bool) (x : BurntNFT), x ∈ store →
      x ∈ (insertManyAux store dup records).1 := by
  induction records with
  | nil => intro store dup x hx; exact hx
  | cons r rest ih =>
    intro store dup x hx
    simp only [insertManyAux]
    by_cases h : dupKey store r = true
    · rw [if_pos h]; exact ih store true x hx
    · rw [if_neg h]
      exact ih (store ++ [r]) dup x (List.mem_append_left _ hx)

theorem insertManyAux_dup_true (records : List BurntNFT) :
    ∀ (store : List BurntNFT), (insertManyAux store true records).2 = true := by
  induction records with
  | nil => intro store; rfl
  | cons r rest ih =>
    intro store
    simp only [insertManyAux]
    by_cases h : dupKey store r = true
    · rw [if_pos h]; exact ih store
    · rw [if_neg h]; exact ih (store ++ [r])

theorem conflicts_mono (store : List BurntNFT) (x r : BurntNFT) :
    conflicts store r → conflicts (store ++ [x]) r := by
  rintro (h | ⟨t, ht, hmem⟩)
  · exact Or.inl (by simp [storeMints] at h ⊢; exact Or.inl h)
  · refine Or.inr ⟨t, ht, ?_⟩
    simp [storeTargets, List.filterMap_append] at hmem ⊢
    exact Or.inl hmem

theorem insertManyAux_conflict_dup (records : List BurntNFT) :
    ∀ (store : List BurntNFT) (dup : Bool),
      (∃ r ∈ records, conflicts store r) →
      (insertManyAux store dup records).2 = true := by
  induction records with
  | nil =>
    intro store dup h
    obtain ⟨r, hr, -⟩ := h
    simp at hr
  | cons r0 rest ih =>
    intro store dup h
    simp only [insertManyAux]
    by_cases hd : dupKey store r0 = true
    · rw [if_pos hd]; exact insertManyAux_dup_true rest store
    · rw [if_neg hd]
      obtain ⟨r, hr, hc⟩ := h
      rcases List.mem_cons.mp hr with rfl | hr
      · exact absurd ((dupKey_iff store r).mpr hc) hd
      · exact ih (store ++ [r0]) dup ⟨r, hr, conflicts_mono store r0 r hc⟩

/-- The pairwise-freshness the submission endpoint's own validation gives a
batch: distinct mints and distinct present upgrade targets. -/
def batchFresh (records : List BurntNFT) : Prop :=
  records.Pairwise (fun a b =>
    a.mint ≠ b.mint ∧ ∀ t, a.upgradeTargetMint = some t → b.upgradeTargetMint ≠ some t)

theorem not_conflicts_append (store : List BurntNFT) (x r : BurntNFT)
    (hx : x.mint ≠ r.mint ∧ ∀ t, x.upgradeTargetMint = some t → r.upgradeTargetMint ≠ some t)
    (h : ¬ conflicts store r) : ¬ conflicts (store ++ [x]) r := by
  rintro (hm | ⟨t, ht, hmem⟩)
  · simp [storeMints] at hm
    rcases hm with hm | hm
    · exact h (Or.inl (by simpa [storeMints] using hm))
    · exact hx.1 (by rw [hm])
  · simp [storeTargets, List.filterMap_append] at hmem
    rcases hmem with hmem | hmem
    · exact h (Or.inr ⟨t, ht, by simpa [storeTargets] using hmem⟩)
    · exact hx.2 t hmem ht

theorem insertManyAux_fresh_inserted (records : List BurntNFT) :
    ∀ (store : List BurntNFT) (dup : Bool), batchFresh records →
      ∀ r ∈ records, ¬ conflicts store r → r ∈ (insertManyAux store dup records).1 := by
  induction records with
  | nil => intro store dup _ r hr; simp at hr
  | cons r0 rest ih =>
    intro store dup hpw r hr hc
    have hpw0 := List.pairwise_cons.mp hpw
    simp only [insertManyAux]
    rcases List.mem_cons.mp hr with rfl | hr
    · have hd : dupKey store r ≠ true := fun hd => hc ((dupKey_iff store r).mp hd)
      rw [if_neg hd]
      exact insertManyAux_mem_store rest (store ++ [r]) dup r
        (List.mem_append_right _ (by simp))
    · by_cases hd : dupKey store r0 = true
      · rw [if_pos hd]; exact ih store true hpw0.2 r hr hc
      · rw [if_neg hd]
        exact ih (store ++ [r0]) dup hpw0.2 r hr
          (not_conflicts_append store r0 r (hpw0.1 r hr) hc)

/-- Claim C1 counterexample: the store already holds a record for mint "A";
a batch containing a new record for "A" and a record for the fresh mint "B"
is submitted to the store-insert step.  The caller does get a 409, but the
batch is NOT rejected atomically: the record for "B" is persisted, so the
store state changes on conflict. -/
theorem claim1_counterexample :
    (insertBurnRecords
        [⟨"A", "Asset A", "W1", "S1", "T1", none, none⟩]
        [⟨"A", "Asset A again", "W2", "S2", "T2", none, none⟩,
         ⟨"B", "Asset B", "W2", "S2", "T2", none, none⟩]).1 = 409 ∧
    (insertBurnRecords
        [⟨"A", "Asset A", "W1", "S1", "T1", none, none⟩]
        [⟨"A", "Asset A again", "W2", "S2", "T2", none, none⟩,
         ⟨"B", "Asset B", "W2", "S2", "T2", none, none⟩]).2 ≠
      [⟨"A", "Asset A", "W1", "S1", "T1", none, none⟩] := by
  constructor
  · rfl
  · decide

/-- Claim C1 as amended: when a batch with pairwise-distinct mints and
pairwise-distinct present upgrade targets is submitted to the store-insert
step and some record's mint already exists in the store (or its non-empty
upgrade target is already claimed), the caller receives a 409 conflict
response and the conflicting records are not persisted, but the rejection is
per record, not per batch: every record of the batch that conflicts with
nothing already in the store is persisted. -/
theorem claim1_insert_per_record (store records : List BurntNFT)
    (hpw : batchFresh records)
    (hconf : ∃ r ∈ records, conflicts store r) :
    (insertBurnRecords store records).1 = 409 ∧
    ∀ r ∈ records, ¬ conflicts store r → r ∈ (insertBurnRecords store records).2 := by
  constructor
  · have := insertManyAux_conflict_dup records store false hconf
    simp only [insertBurnRecords]
    rw [this]
    rfl
  · intro r hr hc
    exact insertManyAux_fresh_inserted records store false hpw r hr hc

/-- Witness for the amended C1 at the counterexample input: the conflicting
submission is answered with 409, yet the fresh record for mint "B" ends up in
the store. -/
theorem claim1_insert_per_record_witness :
    (insertBurnRecords
        [⟨"A", "Asset A", "W1", "S1", "T1", none, none⟩]
        [⟨"A", "Asset A again", "W2", "S2", "T2", none, none⟩,
         ⟨"B", "Asset B", "W2", "S2", "T2", none, none⟩]).1 = 409 ∧
    (⟨"B", "Asset B", "W2", "S2", "T2", none, none⟩ : BurntNFT) ∈
      (insertBurnRecords
        [⟨"A", "Asset A", "W1", "S1", "T1", none, none⟩]
        [⟨"A", "Asset A again", "W2", "S2", "T2", none, none⟩,
         ⟨"B", "Asset B", "W2", "S2", "T2", none, none⟩]).2 := by
  have hpw : batchFresh
      [⟨"A", "Asset A again", "W2", "S2", "T2", none, none⟩,
       ⟨"B", "Asset B", "W2", "S2", "T2", none, none⟩] := by
    constructor
    · intro b hb
      simp at hb
      subst hb
      exact ⟨by decide, fun t ht => Option.noConfusion ht⟩
    · exact List.pairwise_singleton _ _
  have hconf : ∃ r ∈
      [(⟨"A", "Asset A again", "W2", "S2", "T2", none, none⟩ : BurntNFT),
       ⟨"B", "Asset B", "W2", "S2", "T2", none, none⟩],
      conflicts [⟨"A", "Asset A", "W1", "S1", "T1", none, none⟩] r :=
    ⟨⟨"A", "Asset A again", "W2", "S2", "T2", none, none⟩, by simp,
     Or.inl (by decide)⟩
  refine ⟨(claim1_insert_per_record _ _ hpw hconf).1,
    (claim1_insert_per_record _ _ hpw hconf).2
      ⟨"B", "Asset B", "W2", "S2", "T2", none, none⟩ (by simp) ?_⟩
  rintro (hm | ⟨t, ht, -⟩)
  · revert hm; decide
  · exact Option.noConfusion ht

/-! ## The Recorder

Source (identical in both hook variants):

    let retries = 3;
    while (retries > 0) {
      try {
        const res = await fetch('/api/burn-and-upgrade', { ... });
        const result = await res.json();
        if (result.success) return true;
        throw new Error(result.error || 'Failed to record');
      } catch (e) {
        retries--;
        if (retries > 0) await new Promise((r) => setTimeout(r, 1000));
      }
    }
    return false;

Each attempt's outcome is given by an oracle `responses : Nat → ApiResp`
(attempt index to response).  A conflict answer from the store (HTTP 409 with
an error such as "Already recorded: …") reaches this loop as a parsed body
with success:false, i.e. as `ApiResp.errorResp`; a network or parse error is
`ApiResp.transportFail`.  Both flow into the same catch branch. -/

inductive ApiResp where
  | ok
  | errorResp (msg : String)
  | transportFail
deriving DecidableEq

def ApiResp.isOk : ApiResp → Bool
  | .ok => true
  | _ => false

/-- Outcome of the retry loop: the boolean the source returns, the number of
attempts made, and the list of backoff delays (ms) slept between attempts. -/
structure RecordOut where
  ok : Bool
  attempts : Nat
  sleeps : List Nat
deriving DecidableEq

def recordBurnsAux (responses : Nat → ApiResp) : Nat → Nat → List Nat → RecordOut
  | 0, k, acc => ⟨false, k, acc⟩
  | retries + 1, k, acc =>
    if (responses k).isOk then ⟨true, k + 1, acc⟩
    else if retries > 0 then recordBurnsAux responses retries (k + 1) (acc ++ [1000])
    else ⟨false, k + 1, acc⟩

/-- The Recorder's retry loop (`recordBurns`), with 3 attempts. -/
def recordBurns (responses : Nat → ApiResp) : RecordOut :=
  recordBurnsAux responses 3 0 []

/-- Claim C3 counterexample: when every attempt is answered with the store's
conflict response ("Already recorded: A"), the loop still makes all 3
attempts with the two 1-second backoffs — the conflict IS retried — and the
run is indistinguishable from one where every attempt is a transport
failure: the caller gets the same bare `false`, not a distinct
already-recorded condition. -/
theorem claim3_counterexample :
    recordBurns (fun _ => ApiResp.errorResp "Already recorded: A") =
      ⟨false, 3, [1000, 1000]⟩ ∧
    recordBurns (fun _ => ApiResp.errorResp "Already recorded: A") =
      recordBurns (fun _ => ApiResp.transportFail) :=
  ⟨rfl, rfl⟩

/-- Claim C3 as amended: the Recorder retries the persistence call up to 3
attempts with a fixed 1-second backoff on ANY failure response — including a
conflict response from the store, which is retried exactly like a transient
failure — and then gives up reporting a bare recording failure; no distinct
already-recorded condition is surfaced (the outcome depends only on which
attempts succeeded, not on the response bodies). -/
theorem claim3_retry_policy (responses : Nat → ApiResp)
    (h : ∀ k, (responses k).isOk = false) :
    recordBurns responses = ⟨false, 3, [1000, 1000]⟩ ∧
    ∀ responses2 : Nat → ApiResp,
      (∀ k, (responses2 k).isOk = (responses k).isOk) →
      recordBurns responses2 = recordBurns responses := by
  constructor
  · simp [recordBurns, recordBurnsAux, h 0, h 1, h 2]
  · intro r2 h2
    simp [recordBurns, recordBurnsAux, h 0, h 1, h 2, h2 0, h2 1, h2 2]

/-- Witness for the amended C3: a run answered only with conflict responses
makes 3 attempts, sleeps twice for 1000 ms, and returns false. -/
theorem claim3_retry_policy_witness :
    recordBurns (fun _ => ApiResp.errorResp "Already recorded: B") =
      ⟨false, 3, [1000, 1000]⟩ :=
  (claim3_retry_policy (fun _ => ApiResp.errorResp "Already recorded: B")
    (fun _ => rfl)).1

/-! ## burnMultipleNFTs

The two hook variants (mpl-token-metadata and mpl-core) share their control
flow; they differ only in the chain library used for the asset-existence
check and the burn instruction, and in the result they build when recording
fails after a fully successful burn run.  The model below parameterises the
shared flow by the variant tag:

* `fetchOk mint` — whether `fetchDigitalAsset` / `fetchAssetV1` succeeds for
  that mint (phase 1: every requested asset is checked before any batch is
  submitted);
* `submit i` — the result of `builder.sendAndConfirm` for batch index `i`:
  `some sig` on confirmed success, `none` when the batch throws;
* `responses` — the per-attempt store answers consumed by `recordBurns`.

The finalization wait (phase 3) only logs on timeout and changes no state,
so it has no observable effect in the model.  The wallet-connected guard at
the top of the hook is outside the claims and is not modelled. -/

inductive HookVariant where
  | tokenMetadata
  | core
deriving DecidableEq

/-- The result value of `burnMultipleNFTs` (interface MultiBurnResult). -/
structure MultiBurnResult where
  success : Bool
  signatures : List String
  burnedCount : Nat
  error : Option String
deriving DecidableEq

/-- Observable outcome of one `burnMultipleNFTs` run: its returned result,
how many batch transactions were submitted (attempted sends), and the
`burned` argument of each `recordBurns` call that was triggered. -/
structure FlowOut where
  result : MultiBurnResult
  submitted : Nat
  recordCalls : List (List NFT)
deriving DecidableEq

/-- State accumulated by the sequential batch loop. -/
structure RunOut where
  sigs : List String
  burned : List NFT
  attempts : Nat
  failedAt : Option Nat
deriving DecidableEq

def runChunksAux (submit : Nat → Option String) :
    List (List NFT) → Nat → RunOut → RunOut
  | [], _, acc => acc
  | chunk :: rest, ci, acc =>
    match submit ci with
    | some sig =>
        runChunksAux submit rest (ci + 1)
          ⟨acc.sigs ++ [sig], acc.burned ++ chunk, acc.attempts + 1, none⟩
    | none => ⟨acc.sigs, acc.burned, acc.attempts + 1, some ci⟩

/-- The sequential batch loop of `burnMultipleNFTs`: submit each chunk in
order, accumulate signatures and successfully burned NFTs, stop at the first
failing batch. -/
def runChunks (submit : Nat → Option String) (chunks : List (List NFT)) : RunOut :=
  runChunksAux submit chunks 0 ⟨[], [], 0, none⟩

def notFoundMsg (name : String) : String :=
  "NFT \"" ++ name ++ "\" not found — it may have already been burned."

/-- The message thrown after a failed batch when earlier batches succeeded. -/
def partialFailureMsg (burned remaining : Nat) : String :=
  toString burned ++ " NFTs were burned and recorded. " ++
    toString remaining ++ " remaining NFTs were NOT burned."

/-- The mpl-core variant's recording-failure message (also shown by setError). -/
def coreRecordingFailedMsg (sigs : List String) : String :=
  "NFTs burned on-chain but recording failed. Your transaction IDs: " ++
    String.intercalate ", " sigs ++ ". Please contact support with these IDs."

/-- The whole `burnMultipleNFTs` flow.  Phase 1 checks every requested asset
before any transaction is built; phase 2 batches and submits sequentially,
and on a batch failure records the accumulated successes (when non-empty)
before throwing; phase 4 records and builds the final result, where the two
variants differ. -/
def burnMultipleNFTs (variant : HookVariant) (fetchOk : String → Bool)
    (submit : Nat → Option String) (responses : Nat → ApiResp)
    (nftsToBurn upgradeTargets : List NFT) : FlowOut :=
  match nftsToBurn.find? (fun nft => !fetchOk nft.mint) with
  | some nft =>
    ⟨⟨false, [], 0, some (notFoundMsg nft.name)⟩, 0, []⟩
  | none =>
    let chunks := chunkList BURNS_PER_TX nftsToBurn
    let r := runChunks submit chunks
    match r.failedAt with
    | some _ =>
      -- the catch block: record the accumulated successes first (the
      -- source discards recordBurns' boolean here), then throw; the outer
      -- catch turns the thrown message into a failed MultiBurnResult with
      -- empty signatures
      if r.burned = [] then
        ⟨⟨false, [], 0, some "Transaction failed"⟩, r.attempts, []⟩
      else
        ⟨⟨false, [], 0,
            some (partialFailureMsg r.burned.length
              (nftsToBurn.length - r.burned.length))⟩,
          r.attempts, [r.burned]⟩
    | none =>
      if (recordBurns responses).ok then
        ⟨⟨true, r.sigs, r.burned.length, none⟩, r.attempts, [r.burned]⟩
      else
        match variant with
        | .tokenMetadata =>
          ⟨⟨true, r.sigs, r.burned.length, some "Recording failed"⟩,
            r.attempts, [r.burned]⟩
        | .core =>
          ⟨⟨false, r.sigs, r.burned.length, some (coreRecordingFailedMsg r.sigs)⟩,
            r.attempts, [r.burned]⟩

theorem runChunksAux_fail (submit : Nat → Option String) :
    ∀ (j : Nat) (chunks : List (List NFT)) (ci : Nat) (acc : RunOut),
      j < chunks.length →
      (∀ i, i < j → (submit (ci + i)).isSome = true) →
      submit (ci + j) = none →
      (runChunksAux submit chunks ci acc).burned =
          acc.burned ++ ((chunks.take j).flatten) ∧
      (runChunksAux submit chunks ci acc).attempts = acc.attempts + j + 1 ∧
      (runChunksAux submit chunks ci acc).failedAt = some (ci + j) := by
  intro j
  induction j with
  | zero =>
    intro chunks ci acc hj hok hfail
    cases chunks with
    | nil => simp at hj
    | cons c rest =>
      simp only [runChunksAux]
      rw [show ci + 0 = ci from rfl] at hfail
      rw [hfail]
      simp
  | succ n ih =>
    intro chunks ci acc hj hok hfail
    cases chunks with
    | nil => simp at hj
    | cons c rest =>
      simp only [runChunksAux]
      have h0 : (submit (ci + 0)).isSome = true := hok 0 (Nat.succ_pos n)
      rw [show ci + 0 = ci from rfl] at h0
      obtain ⟨sig, hsig⟩ := Option.isSome_iff_exists.mp h0
      rw [hsig]
      have hok2 : ∀ i, i < n → (submit (ci + 1 + i)).isSome = true := by
        intro i hi
        have := hok (i + 1) (by omega)
        rwa [show ci + (i + 1) = ci + 1 + i by omega] at this
      have hfail2 : submit (ci + 1 + n) = none := by
        rwa [show ci + (n + 1) = ci + 1 + n by omega] at hfail
      have hj2 : n < rest.length := by
        simp only [List.length_cons] at hj
        omega
      obtain ⟨hb, ha, hf⟩ := ih rest (ci + 1)
        ⟨acc.sigs ++ [sig], acc.burned ++ c, acc.attempts + 1, none⟩ hj2 hok2 hfail2
      refine ⟨?_, ?_, ?_⟩
      · rw [hb]
        simp [List.append_assoc]
      · rw [ha]
        simp only
        omega
      · rw [hf]
        congr 1
        omega

theorem runChunksAux_ok (submit : Nat → Option String) :
    ∀ (chunks : List (List NFT)) (ci : Nat) (acc : RunOut),
      (∀ i, i < chunks.length → (submit (ci + i)).isSome = true) →
      acc.failedAt = none →
      (runChunksAux submit chunks ci acc).burned = acc.burned ++ chunks.flatten ∧
      (runChunksAux submit chunks ci acc).attempts = acc.attempts + chunks.length ∧
      (runChunksAux submit chunks ci acc).failedAt = none := by
  intro chunks
  induction chunks with
  | nil =>
    intro ci acc hok hacc
    simp only [runChunksAux]
    simp [hacc]
  | cons c rest ih =>
    intro ci acc hok hacc
    simp only [runChunksAux]
    have h0 : (submit (ci + 0)).isSome = true := hok 0 (by simp)
    rw [show ci + 0 = ci from rfl] at h0
    obtain ⟨sig, hsig⟩ := Option.isSome_iff_exists.mp h0
    rw [hsig]
    have hok2 : ∀ i, i < rest.length → (submit (ci + 1 + i)).isSome = true := by
      intro i hi
      have := hok (i + 1) (by simp; omega)
      rwa [show ci + (i + 1) = ci + 1 + i by omega] at this
    obtain ⟨hb, ha, hf⟩ := ih (ci + 1)
      ⟨acc.sigs ++ [sig], acc.burned ++ c, acc.attempts + 1, none⟩ hok2 rfl
    refine ⟨?_, ?_, hf⟩
    · rw [hb]; simp [List.append_assoc]
    · rw [ha]; simp only [List.length_cons]; omega

/-- Every chunk produced for a positive capacity is non-empty. -/
theorem chunkListAux_ne_nil (K : Nat) (hK : 0 < K) :
    ∀ (fuel : Nat) (l : List α), ∀ c ∈ chunkListAux K fuel l, c ≠ [] := by
  intro fuel
  induction fuel with
  | zero =>
    intro l c hc
    cases l <;> simp [chunkListAux] at hc
  | succ n ih =>
    intro l c hc
    cases l with
    | nil => simp [chunkListAux] at hc
    | cons a rest =>
      simp only [chunkListAux, List.mem_cons] at hc
      rcases hc with rfl | hc
      · cases K with
        | zero => omega
        | succ m => simp
      · exact ih _ c hc

/-- Claim C2 (confirmed): in a multi-batch run where batches 0..j-1 succeed
on-chain (0 < j) and batch j fails, `burnMultipleNFTs` attempts no batch
beyond j (j+1 submissions in total), triggers one recording call carrying
exactly the accumulated successfully-burned NFTs before surfacing the error,
and the surfaced error states exactly how many NFTs were burned+recorded and
how many remain un-burned. -/
theorem claim2_partial_failure
    (variant : HookVariant) (fetchOk : String → Bool) (submit : Nat → Option String)
    (responses : Nat → ApiResp) (nfts upgradeTargets : List NFT) (j : Nat)
    (hfetch : ∀ nft ∈ nfts, fetchOk nft.mint = true)
    (hpos : 0 < j)
    (hj : j < (chunkList BURNS_PER_TX nfts).length)
    (hok : ∀ i, i < j → (submit i).isSome = true)
    (hfail : submit j = none) :
    (burnMultipleNFTs variant fetchOk submit responses nfts upgradeTargets).submitted
        = j + 1 ∧
    (burnMultipleNFTs variant fetchOk submit responses nfts upgradeTargets).recordCalls
        = [((chunkList BURNS_PER_TX nfts).take j).flatten] ∧
    (burnMultipleNFTs variant fetchOk submit responses nfts
        upgradeTargets).result.success = false ∧
    (burnMultipleNFTs variant fetchOk submit responses nfts upgradeTargets).result.error
        = some (partialFailureMsg (((chunkList BURNS_PER_TX nfts).take j).flatten).length
            (nfts.length - (((chunkList BURNS_PER_TX nfts).take j).flatten).length)) := by
  have hfind : nfts.find? (fun nft => !fetchOk nft.mint) = none := by
    apply List.find?_eq_none.mpr
    intro x hx
    simp [hfetch x hx]
  have hzero : submit (0 + j) = none := by simpa using hfail
  obtain ⟨hb, ha, hf⟩ := runChunksAux_fail submit j (chunkList BURNS_PER_TX nfts) 0
    ⟨[], [], 0, none⟩ hj (by intro i hi; simpa using hok i hi) hzero
  simp only [List.nil_append] at hb
  have hne : ((chunkList BURNS_PER_TX nfts).take j).flatten ≠ [] := by
    cases hch : chunkList BURNS_PER_TX nfts with
    | nil => rw [hch] at hj; simp at hj
    | cons c0 rest =>
      cases j with
      | zero => omega
      | succ n =>
        have hc0 : c0 ≠ [] := by
          have hmem : c0 ∈ chunkList BURNS_PER_TX nfts := by rw [hch]; simp
          exact chunkListAux_ne_nil BURNS_PER_TX (by decide) _ _ c0 hmem
        simp only [List.take_succ_cons, List.flatten_cons]
        intro hcontr
        exact hc0 (List.append_eq_nil.mp hcontr).1
  simp only [burnMultipleNFTs, hfind, runChunks] at *
  rw [hf]
  simp only [hb, ha]
  rw [if_neg hne]
  refine ⟨?_, rfl, rfl, rfl⟩
  show 0 + j + 1 = j + 1
  omega

/-- Witness for C2: four NFTs with capacity 3 produce batches [[A,B,C],[D]];
batch 0 succeeds, batch 1 fails.  Exactly two submissions happen, the three
burned NFTs are passed to one recording call, and the error reports 3 burned
and 1 remaining. -/
theorem claim2_partial_failure_witness :
    (burnMultipleNFTs .tokenMetadata (fun _ => true)
        (fun i => if i = 0 then some "S1" else none) (fun _ => ApiResp.ok)
        [⟨"A", "a"⟩, ⟨"B", "b"⟩, ⟨"C", "c"⟩, ⟨"D", "d"⟩] []).submitted = 1 + 1 ∧
    (burnMultipleNFTs .tokenMetadata (fun _ => true)
        (fun i => if i = 0 then some "S1" else none) (fun _ => ApiResp.ok)
        [⟨"A", "a"⟩, ⟨"B", "b"⟩, ⟨"C", "c"⟩, ⟨"D", "d"⟩] []).recordCalls =
      [((chunkList BURNS_PER_TX
          ([⟨"A", "a"⟩, ⟨"B", "b"⟩, ⟨"C", "c"⟩, ⟨"D", "d"⟩] : List NFT)).take 1).flatten] ∧
    (burnMultipleNFTs .tokenMetadata (fun _ => true)
        (fun i => if i = 0 then some "S1" else none) (fun _ => ApiResp.ok)
        [⟨"A", "a"⟩, ⟨"B", "b"⟩, ⟨"C", "c"⟩, ⟨"D", "d"⟩] []).result.success = false ∧
    (burnMultipleNFTs .tokenMetadata (fun _ => true)
        (fun i => if i = 0 then some "S1" else none) (fun _ => ApiResp.ok)
        [⟨"A", "a"⟩, ⟨"B", "b"⟩, ⟨"C", "c"⟩, ⟨"D", "d"⟩] []).result.error =
      some (partialFailureMsg
        (((chunkList BURNS_PER_TX
            ([⟨"A", "a"⟩, ⟨"B", "b"⟩, ⟨"C", "c"⟩, ⟨"D", "d"⟩] : List NFT)).take 1).flatten).length
        (([⟨"A", "a"⟩, ⟨"B", "b"⟩, ⟨"C", "c"⟩, ⟨"D", "d"⟩] : List NFT).length -
          (((chunkList BURNS_PER_TX
            ([⟨"A", "a"⟩, ⟨"B", "b"⟩, ⟨"C", "c"⟩, ⟨"D", "d"⟩] : List NFT)).take 1).flatten).length)) :=
  claim2_partial_failure .tokenMetadata (fun _ => true)
    (fun i => if i = 0 then some "S1" else none) (fun _ => ApiResp.ok)
    ([⟨"A", "a"⟩, ⟨"B", "b"⟩, ⟨"C", "c"⟩, ⟨"D", "d"⟩] : List NFT) ([] : List NFT) 1
    (by decide) (by decide) (by decide) (by decide) (by decide)

/-- Claim C9 (confirmed): `burnMultipleNFTs` verifies the on-chain existence
of every requested NFT before submitting any burn transaction: if some
requested asset cannot be fetched, the run fails with an error naming a
missing asset, and zero batch transactions are submitted — even when the
missing asset would only have been in a later batch. -/
theorem claim9_preflight_check
    (variant : HookVariant) (fetchOk : String → Bool) (submit : Nat → Option String)
    (responses : Nat → ApiResp) (nfts upgradeTargets : List NFT)
    (h : ∃ nft ∈ nfts, fetchOk nft.mint = false) :
    (burnMultipleNFTs variant fetchOk submit responses nfts upgradeTargets).submitted
        = 0 ∧
    (burnMultipleNFTs variant fetchOk submit responses nfts
        upgradeTargets).result.success = false ∧
    (burnMultipleNFTs variant fetchOk submit responses nfts
        upgradeTargets).result.signatures = [] ∧
    ∃ bad ∈ nfts, fetchOk bad.mint = false ∧
      (burnMultipleNFTs variant fetchOk submit responses nfts
          upgradeTargets).result.error = some (notFoundMsg bad.name) := by
  have hsome : (nfts.find? (fun nft => !fetchOk nft.mint)).isSome = true := by
    rw [List.find?_isSome]
    obtain ⟨nft, hmem, hfk⟩ := h
    exact ⟨nft, hmem, by simp [hfk]⟩
  obtain ⟨bad, hfind⟩ := Option.isSome_iff_exists.mp hsome
  have hmem : bad ∈ nfts := List.mem_of_find?_eq_some hfind
  have hbad : fetchOk bad.mint = false := by
    have := List.find?_some hfind
    simpa using this
  have hout : burnMultipleNFTs variant fetchOk submit responses nfts upgradeTargets =
      ⟨⟨false, [], 0, some (notFoundMsg bad.name)⟩, 0, []⟩ := by
    simp only [burnMultipleNFTs, hfind]
  rw [hout]
  exact ⟨rfl, rfl, rfl, bad, hmem, hbad, rfl⟩

/-- Witness for C9: the second of three NFTs cannot be fetched; the run
fails naming it and submits nothing even though the first batch contained
only fetchable assets. -/
theorem claim9_preflight_check_witness :
    (burnMultipleNFTs .core (fun m => !(m = "B")) (fun _ => some "S1")
        (fun _ => ApiResp.ok) [⟨"A", "a"⟩, ⟨"B", "b"⟩, ⟨"C", "c"⟩] []).submitted = 0 ∧
    (burnMultipleNFTs .core (fun m => !(m = "B")) (fun _ => some "S1")
        (fun _ => ApiResp.ok) [⟨"A", "a"⟩, ⟨"B", "b"⟩, ⟨"C", "c"⟩] []).result.success
      = false ∧
    (burnMultipleNFTs .core (fun m => !(m = "B")) (fun _ => some "S1")
        (fun _ => ApiResp.ok)
        [⟨"A", "a"⟩, ⟨"B", "b"⟩, ⟨"C", "c"⟩] []).result.signatures = [] :=
  ⟨(claim9_preflight_check .core (fun m => !(m = "B")) (fun _ => some "S1")
      (fun _ => ApiResp.ok) [⟨"A", "a"⟩, ⟨"B", "b"⟩, ⟨"C", "c"⟩] []
      ⟨⟨"B", "b"⟩, by decide, by decide⟩).1,
   (claim9_preflight_check .core (fun m => !(m = "B")) (fun _ => some "S1")
      (fun _ => ApiResp.ok) [⟨"A", "a"⟩, ⟨"B", "b"⟩, ⟨"C", "c"⟩] []
      ⟨⟨"B", "b"⟩, by decide, by decide⟩).2.1,
   (claim9_preflight_check .core (fun m => !(m = "B")) (fun _ => some "S1")
      (fun _ => ApiResp.ok) [⟨"A", "a"⟩, ⟨"B", "b"⟩, ⟨"C", "c"⟩] []
      ⟨⟨"B", "b"⟩, by decide, by decide⟩).2.2.1⟩

/-- Claim C6 counterexample: on an empty input list the batching step simply
produces zero groups and the run proceeds to a vacuous success (here with a
first recording attempt that succeeds): no InvalidArgument failure exists in
the code for empty input (and the capacity is the fixed constant 3, so
K ≤ 0 never arises). -/
theorem claim6_counterexample :
    chunkList BURNS_PER_TX ([] : List NFT) = [] ∧
    (burnMultipleNFTs .tokenMetadata (fun _ => true) (fun _ => none)
        (fun _ => ApiResp.ok) [] []).result =
      ⟨true, [], 0, none⟩ :=
  ⟨rfl, rfl⟩

/-- Claim C6 as amended: the batching step performs no input validation and
has no InvalidArgument failure mode: the capacity is the constant
BURNS_PER_TX = 3 (so K ≤ 0 cannot occur), and an empty input list of burn
targets yields zero groups, after which the run succeeds vacuously rather
than failing. -/
theorem claim6_no_input_validation :
    BURNS_PER_TX = 3 ∧
    chunkList BURNS_PER_TX ([] : List NFT) = [] ∧
    ∀ upgradeTargets : List NFT,
      (burnMultipleNFTs .tokenMetadata (fun _ => true) (fun _ => none)
          (fun _ => ApiResp.ok) [] upgradeTargets).result =
        ⟨true, [], 0, none⟩ :=
  ⟨rfl, rfl, fun _ => rfl⟩

/-- Claim C8 counterexample: one NFT, the burn succeeds on-chain, recording
fails after all retries.  The mpl-token-metadata variant returns
success = true while the mpl-core variant returns success = false for the
very same run — the two implementations do NOT return the same result. -/
theorem claim8_counterexample :
    (burnMultipleNFTs .tokenMetadata (fun _ => true) (fun _ => some "S1")
        (fun _ => ApiResp.transportFail)
        [⟨"A", "Asset A"⟩] [⟨"B", "Asset B"⟩]).result.success = true ∧
    (burnMultipleNFTs .core (fun _ => true) (fun _ => some "S1")
        (fun _ => ApiResp.transportFail)
        [⟨"A", "Asset A"⟩] [⟨"B", "Asset B"⟩]).result.success = false :=
  ⟨rfl, rfl⟩

/-- Claim C8 as amended: in the recording-failure case (all batches burned
on-chain, recording ultimately fails) the two variants agree on signatures
and burnedCount, but they differ in the rest of the result: the
mpl-token-metadata variant returns success = true with error
"Recording failed", while the mpl-core variant returns success = false with
the full recording-failure message. -/
theorem claim8_variants_diverge
    (fetchOk : String → Bool) (submit : Nat → Option String) (responses : Nat → ApiResp)
    (nfts upgradeTargets : List NFT)
    (hfetch : ∀ nft ∈ nfts, fetchOk nft.mint = true)
    (hsub : ∀ i, i < (chunkList BURNS_PER_TX nfts).length → (submit i).isSome = true)
    (hrec : (recordBurns responses).ok = false) :
    (burnMultipleNFTs .tokenMetadata fetchOk submit responses nfts
        upgradeTargets).result.signatures =
      (burnMultipleNFTs .core fetchOk submit responses nfts
        upgradeTargets).result.signatures ∧
    (burnMultipleNFTs .tokenMetadata fetchOk submit responses nfts
        upgradeTargets).result.burnedCount =
      (burnMultipleNFTs .core fetchOk submit responses nfts
        upgradeTargets).result.burnedCount ∧
    (burnMultipleNFTs .tokenMetadata fetchOk submit responses nfts
        upgradeTargets).result.success = true ∧
    (burnMultipleNFTs .core fetchOk submit responses nfts
        upgradeTargets).result.success = false ∧
    (burnMultipleNFTs .tokenMetadata fetchOk submit responses nfts
        upgradeTargets).result.error = some "Recording failed" ∧
    (burnMultipleNFTs .core fetchOk submit responses nfts
        upgradeTargets).result.error =
      some (coreRecordingFailedMsg
        (burnMultipleNFTs .core fetchOk submit responses nfts
          upgradeTargets).result.signatures) := by
  have hfind : nfts.find? (fun nft => !fetchOk nft.mint) = none := by
    apply List.find?_eq_none.mpr
    intro x hx
    simp [hfetch x hx]
  obtain ⟨hb, ha, hf⟩ := runChunksAux_ok submit (chunkList BURNS_PER_TX nfts) 0
    ⟨[], [], 0, none⟩ (by intro i hi; simpa using hsub i hi) rfl
  simp only [burnMultipleNFTs, hfind, runChunks] at *
  rw [hf, hrec]
  simp

/-- Witness for the amended C8 at the counterexample input. -/
theorem claim8_variants_diverge_witness :
    (burnMultipleNFTs .tokenMetadata (fun _ => true) (fun _ => some "S1")
        (fun _ => ApiResp.transportFail)
        [⟨"A", "Asset A"⟩] [⟨"B", "Asset B"⟩]).result.error = some "Recording failed" ∧
    (burnMultipleNFTs .core (fun _ => true) (fun _ => some "S1")
        (fun _ => ApiResp.transportFail)
        [⟨"A", "Asset A"⟩] [⟨"B", "Asset B"⟩]).result.error =
      some (coreRecordingFailedMsg
        (burnMultipleNFTs .core (fun _ => true) (fun _ => some "S1")
          (fun _ => ApiResp.transportFail)
          [⟨"A", "Asset A"⟩] [⟨"B", "Asset B"⟩]).result.signatures) :=
  ⟨(claim8_variants_diverge (fun _ => true) (fun _ => some "S1")
      (fun _ => ApiResp.transportFail) [⟨"A", "Asset A"⟩] [⟨"B", "Asset B"⟩]
      (by decide) (by decide) (by decide)).2.2.2.2.1,
   (claim8_variants_diverge (fun _ => true) (fun _ => some "S1")
      (fun _ => ApiResp.transportFail) [⟨"A", "Asset A"⟩] [⟨"B", "Asset B"⟩]
      (by decide) (by decide) (by decide)).2.2.2.2.2⟩

/-! ## The submission endpoint (POST /api/burn-and-upgrade)

The model starts at step 5 of the handler (presence checks), i.e. after the
HTTP plumbing that the spec treats as external: origin guard, rate limit,
content type, body size and JSON parsing.  `validAddr` stands for
`new PublicKey(..)` succeeding; `sanitize` for `sanitizeString`; `getTx` for
`connection.getTransaction`; `now` for `new Date().toISOString()`. -/

/-- First-occurrence deduplication, as iterating a JS `Set`/`Map` built by
insertion does. -/
def dedupFirstAux (seen : List String) : List String → List String
  | [] => []
  | a :: rest =>
    if a ∈ seen then dedupFirstAux seen rest
    else a :: dedupFirstAux (a :: seen) rest

def dedupFirst (l : List String) : List String :=
  dedupFirstAux [] l

/-- `new Set(l).size !== l.length`. -/
def hasDups (l : List String) : Bool :=
  decide ((dedupFirst l).length ≠ l.length)

/-- The non-empty upgrade-target mints of a request:
`upgrades.map((u) => u.upgradeMint).filter(Boolean)`. -/
def nonEmptyUpgradeMints (upgrades : List UpgradeEntry) : List String :=
  (upgrades.map (fun u => u.upgradeMint)).filter (fun m => decide (m ≠ ""))

/-- Step 7 of the handler, for one burn entry: missing fields, then mint
address syntax. -/
def entryInvalid (validAddr : String → Bool) (b : BurnEntry) : Option (Nat × String) :=
  if b.mintAddress = "" ∨ b.transactionSignature = "" ∨ b.name = "" then
    some (400, "Invalid burn entry — missing fields")
  else if validAddr b.mintAddress = false then
    some (400, "Invalid mint address: " ++ b.mintAddress)
  else none

/-- Steps 5–7e of the handler: the input validation performed before any
store or chain interaction; `none` means the request passes. -/
def validateRequest (validAddr : String → Bool) (body : BurnBatchRequest) :
    Option (Nat × String) :=
  if body.walletAddress = "" ∨ body.burns = [] then
    some (400, "Missing required fields")
  else if validAddr body.walletAddress = false then
    some (400, "Invalid wallet address")
  else
    match body.burns.findSome? (entryInvalid validAddr) with
    | some err => some err
    | none =>
      if hasDups (body.burns.map (fun b => b.mintAddress)) then
        some (400, "Duplicate mint addresses in burn list")
      else if body.upgrades.length ≠ body.burns.length then
        some (400, "Upgrades array must match burns array length")
      else if (nonEmptyUpgradeMints body.upgrades).any
          (fun um => decide (um ∈ body.burns.map (fun b => b.mintAddress))) then
        some (400, "An upgrade target cannot also be a burned NFT")
      else if hasDups (nonEmptyUpgradeMints body.upgrades) then
        some (400, "Duplicate upgrade targets in request")
      else none

/-- Step 8: mints of the request already present in the store
(`collection.find({ mint: { $in: mintAddresses } })`). -/
def existingRecorded (store : List BurntNFT) (burns : List BurnEntry) : List String :=
  (store.filter (fun r => decide (r.mint ∈ burns.map (fun b => b.mintAddress)))).map
    (fun r => r.mint)

/-- Step 8b: non-empty upgrade targets of the request already claimed by a
record in the store. -/
def lockedTargets (store : List BurntNFT) (upgradeMints : List String) : List String :=
  (storeTargets store).filter (fun t => decide (t ∈ upgradeMints))

/-- A transaction as the verification step reads it: whether `meta.err` is
set, and the static account keys (index 0 is the fee payer). -/
structure ChainTx where
  err : Bool
  accountKeys : List String
deriving DecidableEq

/-- The distinct transaction signatures of the request, in first-appearance
order (the iteration order of the `txGroups` map). -/
def txSigs (burns : List BurnEntry) : List String :=
  dedupFirst (burns.map (fun b => b.transactionSignature))

/-- The burn entries grouped under one signature. -/
def sigGroup (burns : List BurnEntry) (sig : String) : List BurnEntry :=
  burns.filter (fun b => decide (b.transactionSignature = sig))

/-- Step 9, for one signature group: the first verification error, if any. -/
def checkSig (walletAddress : String) (getTx : String → Option ChainTx)
    (burns : List BurnEntry) (sig : String) : Option String :=
  match getTx sig with
  | none => some ("Transaction not found: " ++ sig.take 16 ++ "…")
  | some tx =>
    if tx.err then some ("Transaction failed on-chain: " ++ sig.take 16 ++ "…")
    else if tx.accountKeys.head? ≠ some walletAddress then
      some "Transaction not signed by claimed wallet"
    else
      match (sigGroup burns sig).find?
          (fun b => decide (b.mintAddress ∉ tx.accountKeys)) with
      | some b => some ("Mint " ++ b.mintAddress.take 8 ++ "… not found in transaction")
      | none => none

/-- Step 9 over all distinct signatures of the request. -/
def verifyOnChain (walletAddress : String) (getTx : String → Option ChainTx)
    (burns : List BurnEntry) : Option String :=
  (txSigs burns).findSome? (checkSig walletAddress getTx burns)

/-- The conditions the claim states for one signature: the transaction
exists, did not fail, was fee-paid by the claimed wallet, and every claimed
mint of the signature's group appears among its account keys. -/
def sigOk (walletAddress : String) (getTx : String → Option ChainTx)
    (sig : String) (group : List BurnEntry) : Prop :=
  ∃ tx, getTx sig = some tx ∧ tx.err = false ∧
    tx.accountKeys.head? = some walletAddress ∧
    ∀ b ∈ group, b.mintAddress ∈ tx.accountKeys

/-- Step 10: the upgrade map lookup.  `upgradeMap.set` is only called for
entries whose `burnedMint` and `upgradeMint` are both non-empty, and a later
entry for the same burned mint overwrites an earlier one. -/
def upgradeLookup (sanitize : String → String) (upgrades : List UpgradeEntry)
    (mint : String) : Option (String × String) :=
  match (upgrades.filter (fun u =>
      decide (u.burnedMint ≠ "" ∧ u.upgradeMint ≠ "" ∧ u.burnedMint = mint))).getLast? with
  | some u => some (sanitize u.upgradeMint, sanitize u.upgradeName)
  | none => none

/-- Step 11, for one burn entry: the persisted record, with the upgrade
fields present exactly when the upgrade map holds an entry for this mint. -/
def buildRecord (sanitize : String → String) (now wallet : String)
    (upgrades : List UpgradeEntry) (b : BurnEntry) : BurntNFT :=
  let upgrade := upgradeLookup sanitize upgrades b.mintAddress
  { mint := b.mintAddress
    name := if sanitize b.name = "" then "Unknown" else sanitize b.name
    burntBy := wallet
    transactionSignature := b.transactionSignature
    burntAt := now
    upgradeTargetMint := upgrade.map (fun u => u.1)
    upgradeTargetName := upgrade.map (fun u => u.2) }

def buildRecords (sanitize : String → String) (now wallet : String)
    (burns : List BurnEntry) (upgrades : List UpgradeEntry) : List BurntNFT :=
  burns.map (buildRecord sanitize now wallet upgrades)

/-- The endpoint's observable outcome: HTTP status, response fields, and the
store after the call. -/
structure PostResult where
  status : Nat
  success : Bool
  error : Option String
  recorded : Option Nat
  store : List BurntNFT
deriving DecidableEq

/-- The POST handler from step 5 on: validation, store pre-checks, on-chain
verification, record building, unordered insert. -/
def postHandler (validAddr : String → Bool) (sanitize : String → String)
    (getTx : String → Option ChainTx) (now : String)
    (store : List BurntNFT) (body : BurnBatchRequest) : PostResult :=
  match validateRequest validAddr body with
  | some p => ⟨p.1, false, some p.2, none, store⟩
  | none =>
    let existing := existingRecorded store body.burns
    if existing ≠ [] then
      ⟨409, false, some ("Already recorded: " ++ String.intercalate ", " existing),
        none, store⟩
    else
      let locked := lockedTargets store (nonEmptyUpgradeMints body.upgrades)
      if locked ≠ [] then
        ⟨409, false,
          some ("Upgrade targets already claimed: " ++ String.intercalate ", " locked),
          none, store⟩
      else
        match verifyOnChain body.walletAddress getTx body.burns with
        | some msg => ⟨400, false, some msg, none, store⟩
        | none =>
          let records := buildRecords sanitize now body.walletAddress
            body.burns body.upgrades
          let res := insertBurnRecords store records
          if res.1 = 409 then
            ⟨409, false, some "Some NFTs were already recorded", none, res.2⟩
          else
            ⟨200, true, none, some records.length, res.2⟩

theorem sigOk_of_checkSig_none (walletAddress : String) (getTx : String → Option ChainTx)
    (burns : List BurnEntry) (sig : String)
    (h : checkSig walletAddress getTx burns sig = none) :
    sigOk walletAddress getTx sig (sigGroup burns sig) := by
  unfold checkSig at h
  cases hget : getTx sig with
  | none => rw [hget] at h; exact absurd h (by simp)
  | some tx =>
    rw [hget] at h
    simp only at h
    by_cases herr : tx.err = true
    · rw [if_pos herr] at h
      exact absurd h (by simp)
    · rw [if_neg herr] at h
      by_cases hfee : tx.accountKeys.head? = some walletAddress
      · rw [if_neg (by simpa using hfee)] at h
        cases hfind : (sigGroup burns sig).find?
            (fun b => decide (b.mintAddress ∉ tx.accountKeys)) with
        | some b => rw [hfind] at h; exact absurd h (by simp)
        | none =>
          refine ⟨tx, hget, ?_, hfee, ?_⟩
          · cases hb : tx.err with
            | false => rfl
            | true => exact absurd hb herr
          · intro b hb
            have := List.find?_eq_none.mp hfind b hb
            simpa using this
      · rw [if_pos hfee] at h
        exact absurd h (by simp)

theorem findSome?_isSome_of_mem {α β : Type} (f : α → Option β) (l : List α) (a : α)
    (ha : a ∈ l) (hf : f a ≠ none) : (l.findSome? f).isSome = true := by
  induction l with
  | nil => simp at ha
  | cons b rest ih =>
    rw [List.findSome?_cons]
    cases hb : f b with
    | some v => rfl
    | none =>
      rcases List.mem_cons.mp ha with rfl | ha2
      · exact absurd hb hf
      · exact ih ha2

/-- Claim C4 (confirmed): a submission that passes input validation and the
store pre-checks is rejected with 400 and inserts nothing whenever, for some
distinct transaction signature it references, the verification conditions
fail: the transaction must exist, must not have failed, must be fee-paid by
the claimed wallet, and every claimed mint of that signature's group must
appear among the transaction's account keys. -/
theorem claim4_chain_verification (validAddr : String → Bool) (sanitize : String → String)
    (getTx : String → Option ChainTx) (now : String)
    (store : List BurntNFT) (body : BurnBatchRequest)
    (hval : validateRequest validAddr body = none)
    (hmints : existingRecorded store body.burns = [])
    (htargets : lockedTargets store (nonEmptyUpgradeMints body.upgrades) = [])
    (hbad : ∃ sig ∈ txSigs body.burns,
      ¬ sigOk body.walletAddress getTx sig (sigGroup body.burns sig)) :
    (postHandler validAddr sanitize getTx now store body).status = 400 ∧
    (postHandler validAddr sanitize getTx now store body).success = false ∧
    (postHandler validAddr sanitize getTx now store body).store = store := by
  obtain ⟨sig, hsig, hnot⟩ := hbad
  have hck : checkSig body.walletAddress getTx body.burns sig ≠ none := by
    intro hc
    exact hnot (sigOk_of_checkSig_none _ _ _ _ hc)
  have hver : (verifyOnChain body.walletAddress getTx body.burns).isSome = true :=
    findSome?_isSome_of_mem _ _ sig hsig hck
  obtain ⟨msg, hmsg⟩ := Option.isSome_iff_exists.mp hver
  have hout : postHandler validAddr sanitize getTx now store body =
      ⟨400, false, some msg, none, store⟩ := by
    simp only [postHandler, hval, hmints, htargets, hmsg]
    simp
  rw [hout]
  exact ⟨rfl, rfl, rfl⟩

/-- Witness for C4: a validation-passing single-burn request whose
transaction the chain does not know is rejected with 400 against an empty
store, which stays empty. -/
theorem claim4_chain_verification_witness :
    (postHandler (fun _ => true) (fun s => s) (fun _ => none) "T" []
        ⟨"W", [⟨"M", "S", "N"⟩], [⟨"", "", ""⟩]⟩).status = 400 ∧
    (postHandler (fun _ => true) (fun s => s) (fun _ => none) "T" []
        ⟨"W", [⟨"M", "S", "N"⟩], [⟨"", "", ""⟩]⟩).success = false ∧
    (postHandler (fun _ => true) (fun s => s) (fun _ => none) "T" []
        ⟨"W", [⟨"M", "S", "N"⟩], [⟨"", "", ""⟩]⟩).store = [] :=
  claim4_chain_verification (fun _ => true) (fun s => s) (fun _ => none) "T" []
    ⟨"W", [⟨"M", "S", "N"⟩], [⟨"", "", ""⟩]⟩ (by decide) (by decide) (by decide)
    ⟨"S", by decide, by
      rintro ⟨tx, htx, -⟩
      exact Option.noConfusion htx⟩

/-- Claim C10 (confirmed): the overlap check (7d) and the duplicate check
(7e) act on `upgrades.map(u => u.upgradeMint).filter(Boolean)`, so entries
with an empty `upgradeMint` are invisible to them — any number of such
"burn without claim" entries can be appended without changing the checked
list, they can never be rejected as duplicates or overlaps — and the record
built for a burn whose upgrade entries all have an empty `upgradeMint`
omits both upgrade fields entirely. -/
theorem claim10_empty_upgrade_entries (sanitize : String → String) (now wallet : String)
    (upgrades es : List UpgradeEntry)
    (hes : ∀ e ∈ es, e.upgradeMint = "") :
    nonEmptyUpgradeMints (upgrades ++ es) = nonEmptyUpgradeMints upgrades ∧
    nonEmptyUpgradeMints es = [] ∧
    hasDups (nonEmptyUpgradeMints es) = false ∧
    ∀ (ups : List UpgradeEntry) (b : BurnEntry),
      (∀ u ∈ ups, u.burnedMint = b.mintAddress → u.upgradeMint = "") →
      (buildRecord sanitize now wallet ups b).upgradeTargetMint = none ∧
      (buildRecord sanitize now wallet ups b).upgradeTargetName = none := by
  have hes3 : List.filter (fun m => !decide (m = ""))
      (List.map (fun u => u.upgradeMint) es) = [] := by
    apply List.filter_eq_nil_iff.mpr
    intro m hm
    simp only [List.mem_map] at hm
    obtain ⟨u, hu, rfl⟩ := hm
    simp [hes u hu]
  refine ⟨?_, ?_, ?_, ?_⟩
  · simp [nonEmptyUpgradeMints, List.map_append, List.filter_append, hes3]
  · simp [nonEmptyUpgradeMints, hes3]
  · simp [nonEmptyUpgradeMints, hes3, hasDups, dedupFirst, dedupFirstAux]
  · intro ups b hb
    have hfilter : ups.filter (fun u =>
        decide (u.burnedMint ≠ "" ∧ u.upgradeMint ≠ "" ∧ u.burnedMint = b.mintAddress))
        = [] := by
      apply List.filter_eq_nil_iff.mpr
      intro u hu
      simp only [decide_eq_true_eq]
      rintro ⟨-, h2, h3⟩
      exact h2 (hb u hu h3)
    have hlook : upgradeLookup sanitize ups b.mintAddress = none := by
      unfold upgradeLookup
      rw [hfilter]
      rfl
    constructor <;> simp [buildRecord, hlook]

/-- Witness for C10: one real claim plus two claim-less entries (empty
upgradeMint).  The claim-less entries vanish from the checked list, which
therefore has no duplicates even though the two empty values repeat. -/
theorem claim10_empty_upgrade_entries_witness :
    nonEmptyUpgradeMints
        (([⟨"A", "B", "NB"⟩] : List UpgradeEntry) ++
          ([⟨"X", "", ""⟩, ⟨"Y", "", ""⟩] : List UpgradeEntry)) =
      nonEmptyUpgradeMints ([⟨"A", "B", "NB"⟩] : List UpgradeEntry) ∧
    nonEmptyUpgradeMints ([⟨"X", "", ""⟩, ⟨"Y", "", ""⟩] : List UpgradeEntry) = [] ∧
    hasDups (nonEmptyUpgradeMints ([⟨"X", "", ""⟩, ⟨"Y", "", ""⟩] : List UpgradeEntry))
      = false :=
  ⟨(claim10_empty_upgrade_entries (fun s => s) "T" "W" [⟨"A", "B", "NB"⟩]
      [⟨"X", "", ""⟩, ⟨"Y", "", ""⟩] (by decide)).1,
   (claim10_empty_upgrade_entries (fun s => s) "T" "W" [⟨"A", "B", "NB"⟩]
      [⟨"X", "", ""⟩, ⟨"Y", "", ""⟩] (by decide)).2.1,
   (claim10_empty_upgrade_entries (fun s => s) "T" "W" [⟨"A", "B", "NB"⟩]
      [⟨"X", "", ""⟩, ⟨"Y", "", ""⟩] (by decide)).2.2.1⟩

/-! ## The Reconciliation Auditor (scripts/verify-burns.ts)

For each on-chain burned asset the script looks up its most recent
transaction signature and block time; `burnedAt` is `none` when that time
could not be determined.  The store is read back as two key sets: the
recorded mints and the recorded transaction signatures. -/

/-- One burned asset with its inferred burn transaction (interface
TransactionInfo). -/
structure TxInfo where
  mint : String
  name : String
  owner : String
  burnedAt : Option Int
  signature : String
deriving DecidableEq

/-- Burns whose time is known and on/after the cutoff
(`b.burnedAt !== null && b.burnedAt >= SINCE`). -/
def recentBurns (since : Int) (l : List TxInfo) : List TxInfo :=
  l.filter (fun b =>
    match b.burnedAt with
    | some t => decide (since ≤ t)
    | none => false)

/-- Burns whose time could not be determined (`b.burnedAt === null`). -/
def undatedBurns (l : List TxInfo) : List TxInfo :=
  l.filter (fun b => b.burnedAt.isNone)

/-- The set the auditor checks against the store:
`[...recentBurns, ...undated]` — undated burns cannot be excluded safely. -/
def burnsToCheck (since : Int) (l : List TxInfo) : List TxInfo :=
  recentBurns since l ++ undatedBurns l

inductive MatchKey where
  | mint
  | sig
deriving DecidableEq

/-- How one checked burn matches the store:
`byMint.has(b.mint) ? 'mint' : b.signature && bySig.has(b.signature) ? 'sig' : null`. -/
def matchedBy (byMint bySig : List String) (b : TxInfo) : Option MatchKey :=
  if b.mint ∈ byMint then some MatchKey.mint
  else if b.signature ≠ "" ∧ b.signature ∈ bySig then some MatchKey.sig
  else none

/-- Claim C7 (confirmed): every on-chain burned asset whose burn time cannot
be determined is included in the set the auditor checks against the store,
and each checked burn is matched against the store by mint address first and
by transaction signature second. -/
theorem claim7_auditor_scope_and_matching (since : Int) (l : List TxInfo)
    (byMint bySig : List String) (b : TxInfo) :
    (b ∈ l → b.burnedAt = none → b ∈ burnsToCheck since l) ∧
    (b.mint ∈ byMint → matchedBy byMint bySig b = some MatchKey.mint) ∧
    (b.mint ∉ byMint → b.signature ≠ "" → b.signature ∈ bySig →
      matchedBy byMint bySig b = some MatchKey.sig) := by
  refine ⟨?_, ?_, ?_⟩
  · intro hmem hnone
    apply List.mem_append_right
    apply List.mem_filter.mpr
    exact ⟨hmem, by simp [hnone]⟩
  · intro h
    simp [matchedBy, h]
  · intro h1 h2 h3
    rw [matchedBy, if_neg h1, if_pos ⟨h2, h3⟩]

/-- Witness for C7: an undated burn is in scope; a burn recorded under its
mint matches by mint even when its signature is also recorded; a burn absent
by mint but recorded under its signature matches by signature. -/
theorem claim7_auditor_scope_and_matching_witness :
    (⟨"MU", "n", "o", none, "SU"⟩ : TxInfo) ∈
      burnsToCheck 0 [⟨"MU", "n", "o", none, "SU"⟩] ∧
    matchedBy ["MA"] ["SA"] ⟨"MA", "n", "o", some 5, "SA"⟩ = some MatchKey.mint ∧
    matchedBy ["MZ"] ["SB"] ⟨"MB", "n", "o", some 5, "SB"⟩ = some MatchKey.sig :=
  ⟨(claim7_auditor_scope_and_matching 0 [⟨"MU", "n", "o", none, "SU"⟩] [] []
      ⟨"MU", "n", "o", none, "SU"⟩).1 (by decide) rfl,
   (claim7_auditor_scope_and_matching 0 [] ["MA"] ["SA"]
      ⟨"MA", "n", "o", some 5, "SA"⟩).2.1 (by decide),
   (claim7_auditor_scope_and_matching 0 [] ["MZ"] ["SB"]
      ⟨"MB", "n", "o", some 5, "SB"⟩).2.2 (by decide) (by decide) (by decide)⟩
